import Mathlib

/-!
Verification of the RAG admin ingestion-and-consistency pipeline
(`src/admin_app.py`): text segmentation (`chunk_text`), chunk embedding and
vector upsert (`store_chunks`), the upload handler's routing of category
pointers (`admin_upload`), listing (`get_documents`,
`get_stateboard_documents`, `get_cbse_documents`), update
(`update_document`) and deletion (`delete_document`) over a state holding
the three MongoDB collections and the Pinecone vector index.

Text is modelled as `List Char` (Python `str`), MongoDB collections as
lists of records in natural (insertion) order, and the embedder as an
abstract function into an abstract vector type `V` (the embedding model is
an external collaborator).
-/

set_option autoImplicit false

namespace RagAdmin

/-! ## Segmenter: `chunk_text` (admin_app.py lines 93-100) -/

/-- Python slice `text[start:stop]` for `start ≤ stop` (clamped at the
end of the list, as Python slicing is). -/
def pySlice (text : List Char) (start stop : Nat) : List Char :=
  (text.drop start).take (stop - start)

/-- The `while start < len(text)` loop of `chunk_text`, with explicit fuel:
`none` means the fuel ran out before the loop exited.  Each iteration
emits `text[start:start+chunk_size]` and advances `start` to
`start + chunk_size - overlap`, exactly as the source does. -/
def chunkTextLoop (C O : Nat) (text : List Char) : Nat → Nat → Option (List (List Char))
  | _start, 0 => none
  | start, fuel + 1 =>
    if start < text.length then
      match chunkTextLoop C O text (start + C - O) fuel with
      | some rest => some (pySlice text start (start + C) :: rest)
      | none => none
    else
      some []

/-- The function `chunk_text(text, chunk_size=500, overlap=100)`.  The loop advances
`start` by at least one per iteration whenever `overlap < chunk_size`, so
`text.length + 1` fuel is enough for every terminating run; a `none`
result means the source loop does not terminate on these arguments. -/
def chunk_text (text : List Char) (chunk_size : Nat := 500) (overlap : Nat := 100) :
    Option (List (List Char)) :=
  chunkTextLoop chunk_size overlap text 0 (text.length + 1)

/-- Number of loop iterations of `chunk_text` on a text of length `L`:
the least `n` with `n * (C - O) ≥ L`, i.e. `⌈L / (C - O)⌉`. -/
def numChunks (L C O : Nat) : Nat := (L + (C - O) - 1) / (C - O)

/-- The chunk count claimed by the spec: `⌈max(L - O, 0) / (C - O)⌉`
(in `Nat`, `max (L - O) 0 = L - O`). -/
def claimedNumChunks (L C O : Nat) : Nat := (L - O + (C - O) - 1) / (C - O)

/-- Closed form of the chunk list produced from offset `start` on:
chunk `i` is `text[start + i*(C-O) : start + i*(C-O) + C]`. -/
def chunksFrom (text : List Char) (C O start : Nat) : List (List Char) :=
  (List.range (numChunks (text.length - start) C O)).map
    fun i => pySlice text (start + i * (C - O)) (start + i * (C - O) + C)

/-- Closed form of the full chunk list: chunk `i` is
`text[i*(C-O) : i*(C-O) + C]`. -/
def chunksSpec (text : List Char) (C O : Nat) : List (List Char) :=
  (List.range (numChunks text.length C O)).map
    fun i => pySlice text (i * (C - O)) (i * (C - O) + C)

/-! ## Data model: the MongoDB collections and the Pinecone index -/

/-- A canonical record of the `documents` collection (admin_app.py lines
223-231).  The `class`, `board`, `subject`, `group` fields come from
`request.form.get(...)`, which yields `None` (`none`) when the field is
absent; `uploaded_at` abstracts the `datetime.utcnow()` timestamp. -/
structure DocRecord where
  document_id : String
  filename : String
  class_ : Option String
  board : Option String
  subject : Option String
  group : Option String
  uploaded_at : Nat
  deriving DecidableEq

/-- A category-pointer record of the `stateboard` / `cbse` collections
(lines 233-239). -/
structure CatPointer where
  class_ : Option String
  subject : Option String
  group : Option String
  document_id : String
  deriving DecidableEq

/-- One Pinecone record built by `store_chunks` (lines 107-118).  The
embedding payload type `V` is abstract: `get_embedding` (line 103) wraps
an external model and the claims never depend on the numbers inside. -/
structure VectorRecord (V : Type) where
  id : String
  values : V
  metadata_text : List Char
  metadata_document_id : String
  deriving DecidableEq

/-- The persistent state: the three MongoDB collections, each a list of
records in natural (insertion) order, and the Pinecone index. -/
structure DBState (V : Type) where
  documents : List DocRecord
  stateboard : List CatPointer
  cbse : List CatPointer
  vectors : List (VectorRecord V)
  deriving DecidableEq

/-! ## Vector index adapter -/

/-- The call `store_chunks(chunks, document_id)` (lines 107-118): the batch of
records upserted into the index — one per chunk, id
`f"{document_id}-{i}"` from `enumerate`, metadata `{text, document_id}`,
values from `get_embedding(chunk)` (abstracted as `embed`). -/
def store_chunks {V : Type} (embed : List Char → V) (chunks : List (List Char))
    (document_id : String) : List (VectorRecord V) :=
  chunks.enum.map fun p =>
    { id := document_id ++ "-" ++ toString p.1
      values := embed p.2
      metadata_text := p.2
      metadata_document_id := document_id }

/-- Pinecone `index.upsert(vectors)`: idempotent by id — existing records
whose id occurs in the new batch are overwritten in place; here the
overwritten records are dropped and the batch appended. -/
def indexUpsert {V : Type} (vs new : List (VectorRecord V)) : List (VectorRecord V) :=
  (vs.filter fun v => !(new.any fun n => n.id == v.id)) ++ new

/-! ## Ingestion coordinator: `admin_upload` (lines 202-244) -/

/-- The state effect of `admin_upload`: chunk the extracted text with the
default `chunk_size=500, overlap=100`, upsert one vector per chunk,
insert the canonical record, and insert exactly one category pointer —
into `stateboard` when `board == "stateboard"`, into `cbse` for every
other value of `board` (including a missing form field, `none`). -/
def admin_upload {V : Type} (embed : List Char → V) (s : DBState V)
    (filename : String) (text : List Char) (document_id : String)
    (class_ board subject group : Option String) (now : Nat) : DBState V :=
  let chunks := (chunk_text text).getD []
  let newVectors := store_chunks embed chunks document_id
  let docRec : DocRecord :=
    ⟨document_id, filename, class_, board, subject, group, now⟩
  let ptr : CatPointer := ⟨class_, subject, group, document_id⟩
  if board = some "stateboard" then
    { documents := s.documents ++ [docRec]
      stateboard := s.stateboard ++ [ptr]
      cbse := s.cbse
      vectors := indexUpsert s.vectors newVectors }
  else
    { documents := s.documents ++ [docRec]
      stateboard := s.stateboard
      cbse := s.cbse ++ [ptr]
      vectors := indexUpsert s.vectors newVectors }

/-! ## Retrieval / listing service (lines 249-265, 297-321, 326-350) -/

/-- Python truthiness of an optional request parameter: `None` and the
empty string are falsy, so `if board:` skips both. -/
def truthy : Option String → Bool
  | none => false
  | some s => !(s == "")

/-- Mongo `.find(query).limit(n)`: `limit(0)` means no limit. -/
def mongoLimit {α : Type} (limit : Nat) (l : List α) : List α :=
  if limit == 0 then l else l.take limit

/-- The filter document built by `get_documents` (lines 256-262), applied
to a canonical record: equality on each of `board`, `class`, `subject`
that was provided and truthy.  `get_documents` never reads a `group`
parameter. -/
def matchesDocQuery (board class_ subject : Option String) (r : DocRecord) : Bool :=
  (!truthy board || (r.board == board)) &&
  (!truthy class_ || (r.class_ == class_)) &&
  (!truthy subject || (r.subject == subject))

/-- Handler `get_documents` (lines 249-265): filter the canonical store by the
provided `board`/`class`/`subject` parameters and cap at `limit`.  The
`group` request parameter is accepted but never read by the handler. -/
def get_documents {V : Type} (s : DBState V)
    (board class_ subject group : Option String) (limit : Nat) : List DocRecord :=
  mongoLimit limit (s.documents.filter (matchesDocQuery board class_ subject))

/-- The filter document built by the two board-scoped listing handlers,
applied to a category pointer. -/
def matchesPtrQuery (class_ subject group : Option String) (p : CatPointer) : Bool :=
  (!truthy class_ || (p.class_ == class_)) &&
  (!truthy subject || (p.subject == subject)) &&
  (!truthy group || (p.group == group))

/-- Handler `get_stateboard_documents` (lines 297-321): filter the `stateboard`
pointers (capped at `limit`), then return the canonical records whose
`document_id` is in the resulting id list. -/
def get_stateboard_documents {V : Type} (s : DBState V)
    (class_ subject group : Option String) (limit : Nat) : List DocRecord :=
  let state_docs := mongoLimit limit (s.stateboard.filter (matchesPtrQuery class_ subject group))
  let document_ids := state_docs.map fun p => p.document_id
  s.documents.filter fun d => document_ids.contains d.document_id

/-- Handler `get_cbse_documents` (lines 326-350): the same join over the `cbse`
partition. -/
def get_cbse_documents {V : Type} (s : DBState V)
    (class_ subject group : Option String) (limit : Nat) : List DocRecord :=
  let cbse_docs := mongoLimit limit (s.cbse.filter (matchesPtrQuery class_ subject group))
  let document_ids := cbse_docs.map fun p => p.document_id
  s.documents.filter fun d => document_ids.contains d.document_id

/-! ## Update coordinator: `update_document` (lines 270-279) -/

/-- The JSON body of an update request, restricted to the canonical
schema: a present field (`some`) is `$set` on the matched record, an
absent field (`none`) is left alone.  The handler passes the body to
`$set` unchanged, so a `document_id` key is settable like any other. -/
structure UpdateData where
  document_id : Option String := none
  filename : Option String := none
  class_ : Option String := none
  board : Option String := none
  subject : Option String := none
  group : Option String := none
  deriving DecidableEq

/-- Mongo `$set` of one optional-valued field: the update value wins when
present. -/
def setField (u old : Option String) : Option String :=
  match u with
  | some v => some v
  | none => old

/-- The effect of `{"$set": data}` on one matched record. -/
def applySet (data : UpdateData) (r : DocRecord) : DocRecord :=
  { document_id := data.document_id.getD r.document_id
    filename := data.filename.getD r.filename
    class_ := setField data.class_ r.class_
    board := setField data.board r.board
    subject := setField data.subject r.subject
    group := setField data.group r.group
    uploaded_at := r.uploaded_at }

/-- Mongo `update_one({"document_id": id}, {"$set": data})`: apply
`$set` to the first record matching the filter; at most one record is
modified, and a zero-match update still succeeds. -/
def updateOne (document_id : String) (data : UpdateData) :
    List DocRecord → List DocRecord
  | [] => []
  | r :: rs =>
    if r.document_id == document_id then applySet data r :: rs
    else r :: updateOne document_id data rs

/-- Handler `update_document` (lines 270-279): partial-field merge on the first
canonical record with the given `document_id`; unconditionally reports
success. -/
def update_document {V : Type} (s : DBState V) (document_id : String)
    (data : UpdateData) : DBState V × String :=
  ({ s with documents := updateOne document_id data s.documents },
   "Document updated successfully")

/-! ## Deletion coordinator: `delete_document` (lines 284-292) -/

/-- Handler `delete_document`: `delete_one` by `document_id` on the canonical
store (removes the first match, if any), `delete_many` on both category
partitions, and a metadata-filtered delete on the vector index;
unconditionally reports success. -/
def delete_document {V : Type} (s : DBState V) (document_id : String) :
    DBState V × String :=
  ({ documents := s.documents.eraseP fun r => r.document_id == document_id
     stateboard := s.stateboard.filter fun p => !(p.document_id == document_id)
     cbse := s.cbse.filter fun p => !(p.document_id == document_id)
     vectors := s.vectors.filter fun v => !(v.metadata_document_id == document_id) },
   "Document deleted successfully")

/-- A small concrete state used by witnesses: one document `"d1"` with a
pointer in each partition and one vector record. -/
def sWit : DBState Unit :=
  ⟨[⟨"d1", "f.pdf", some "10", some "stateboard", some "Math", some "G", 0⟩],
   [⟨some "10", some "Math", some "G", "d1"⟩],
   [⟨some "10", some "Math", some "G", "d1"⟩],
   [⟨"d1-0", (), String.toList "abc", "d1"⟩]⟩

/-- The filter the C8 claim asserts for the unscoped listing, following
the spec's words: the AND-combination of whichever of the class, subject
and group equality filters were provided. -/
def claimedListingFilter (class_ subject group : Option String) (r : DocRecord) : Bool :=
  (!truthy class_ || (r.class_ == class_)) &&
  (!truthy subject || (r.subject == subject)) &&
  (!truthy group || (r.group == group))

/-- A state with one canonical record whose `group` is `"A"`. -/
def sGroupA : DBState Unit :=
  ⟨[⟨"d1", "f.pdf", none, none, none, some "A", 0⟩], [], [], []⟩

/-- A state with one canonical record with `document_id = "a"`. -/
def sDocA : DBState Unit :=
  ⟨[⟨"a", "f.pdf", none, none, none, none, 0⟩], [], [], []⟩

/-! ### Arithmetic of the ceiling chunk count -/

theorem numChunks_zero {C O : Nat} (h : O < C) : numChunks 0 C O = 0 := by
  unfold numChunks
  exact Nat.div_eq_of_lt (by omega)

theorem numChunks_succ {L C O : Nat} (h : O < C) (hL : 0 < L) :
    numChunks L C O = numChunks (L - (C - O)) C O + 1 := by
  unfold numChunks
  set s := C - O with hs
  have hspos : 0 < s := by omega
  rcases le_or_lt L s with hle | hlt
  · have h1 : L + s - 1 < 2 * s := by omega
    have h2 : 1 * s ≤ L + s - 1 := by omega
    have hL0 : L - s = 0 := by omega
    rw [hL0]
    rw [Nat.div_eq_of_lt_le h2 (by omega), Nat.div_eq_of_lt (by omega)]
  · have h3 : L + s - 1 = (L - s + s - 1) + s := by omega
    rw [h3, Nat.add_div_right _ hspos]

theorem le_numChunks_mul {L C O : Nat} (h : O < C) :
    L ≤ numChunks L C O * (C - O) := by
  have hspos : 0 < C - O := by omega
  have h1 : L ≤ (C - O) • (L ⌈/⌉ (C - O)) := le_smul_ceilDiv hspos
  have h2 : L ⌈/⌉ (C - O) = numChunks L C O := rfl
  rw [h2, smul_eq_mul, Nat.mul_comm] at h1
  exact h1

theorem numChunks_mul_lt {L C O : Nat} (h : O < C) :
    numChunks L C O * (C - O) < L + (C - O) := by
  unfold numChunks
  set s := C - O with hs
  have hspos : 0 < s := by omega
  have := Nat.div_mul_le_self (L + s - 1) s
  omega

theorem mul_lt_of_lt_numChunks {L C O i : Nat} (h : O < C)
    (hi : i < numChunks L C O) : i * (C - O) < L := by
  set s := C - O with hs
  have hspos : 0 < s := by omega
  have h1 : numChunks L C O * s < L + s := numChunks_mul_lt h
  have h2 : i * s + s ≤ numChunks L C O * s := by
    have h3 : (i + 1) * s ≤ numChunks L C O * s :=
      Nat.mul_le_mul_right s (Nat.succ_le_of_lt hi)
    have h4 : (i + 1) * s = i * s + s := by ring
    omega
  omega

/-! ### The loop computes the closed form -/

theorem chunksFrom_stop {text : List Char} {C O start : Nat} (h : O < C)
    (hstop : text.length ≤ start) : chunksFrom text C O start = [] := by
  unfold chunksFrom
  have h0 : text.length - start = 0 := by omega
  rw [h0, numChunks_zero h, List.range_zero, List.map_nil]

theorem chunksFrom_cons {text : List Char} {C O start : Nat} (h : O < C)
    (hlt : start < text.length) :
    chunksFrom text C O start =
      pySlice text start (start + C) :: chunksFrom text C O (start + (C - O)) := by
  unfold chunksFrom
  have h1 : numChunks (text.length - start) C O
      = numChunks (text.length - (start + (C - O))) C O + 1 := by
    rw [numChunks_succ h (by omega)]
    congr 2
    omega
  rw [h1, List.range_succ_eq_map, List.map_cons, List.map_map]
  refine congrArg₂ List.cons ?_ ?_
  · have h0 : start + 0 * (C - O) = start := by ring
    rw [h0]
  · have hfun : ((fun i => pySlice text (start + i * (C - O)) (start + i * (C - O) + C))
        ∘ Nat.succ)
        = fun i => pySlice text (start + (C - O) + i * (C - O))
            (start + (C - O) + i * (C - O) + C) := by
      funext i
      have he : start + Nat.succ i * (C - O) = start + (C - O) + i * (C - O) := by
        rw [Nat.succ_mul]; ring
      simp only [Function.comp_apply, he]
    rw [hfun]

theorem chunkTextLoop_eq_chunksFrom {C O : Nat} (h : O < C) (text : List Char) :
    ∀ fuel start, text.length - start < fuel →
      chunkTextLoop C O text start fuel = some (chunksFrom text C O start) := by
  intro fuel
  induction fuel with
  | zero => intro start hf; omega
  | succ n ih =>
    intro start hf
    unfold chunkTextLoop
    by_cases hlt : start < text.length
    · have harg : start + C - O = start + (C - O) := by omega
      rw [if_pos hlt, harg, ih (start + (C - O)) (by omega),
        chunksFrom_cons h hlt]
    · rw [if_neg hlt, chunksFrom_stop h (by omega)]

theorem chunksFrom_zero {text : List Char} {C O : Nat} :
    chunksFrom text C O 0 = chunksSpec text C O := by
  unfold chunksFrom chunksSpec
  simp

theorem chunk_text_eq_chunksSpec {text : List Char} {C O : Nat} (h : O < C) :
    chunk_text text C O = some (chunksSpec text C O) := by
  unfold chunk_text
  rw [chunkTextLoop_eq_chunksFrom h text (text.length + 1) 0 (by omega), chunksFrom_zero]

theorem length_chunksSpec {text : List Char} {C O : Nat} :
    (chunksSpec text C O).length = numChunks text.length C O := by
  unfold chunksSpec
  simp

theorem numChunks_eq_one {L C O : Nat} (h : O < C) (hL : 0 < L)
    (hle : L ≤ C - O) : numChunks L C O = 1 := by
  unfold numChunks
  set s := C - O with hs
  exact Nat.div_eq_of_lt_le (by omega) (by omega)

/-! ### Reconstruction of the text from the chunks -/

theorem take_pySlice_chunk {text : List Char} {a s C : Nat} (hsC : s ≤ C) :
    (pySlice text a (a + C)).take s = (text.drop a).take s := by
  unfold pySlice
  have h1 : a + C - a = C := by omega
  rw [h1, List.take_take, Nat.min_eq_left hsC]

theorem join_take_chunks (text : List Char) (s C : Nat) (hsC : s ≤ C) :
    ∀ m, ((List.range m).map fun i => (pySlice text (i * s) (i * s + C)).take s).flatten
        = text.take (m * s) := by
  intro m
  induction m with
  | zero => simp
  | succ k ih =>
    rw [List.range_succ, List.map_append, List.flatten_append]
    simp only [List.map_cons, List.map_nil, List.flatten_cons, List.flatten_nil,
      List.append_nil]
    rw [ih, take_pySlice_chunk hsC, Nat.succ_mul, List.take_add]

theorem chunksSpec_get {text : List Char} {C O : Nat} (i : Nat)
    (hi : i < (chunksSpec text C O).length) :
    (chunksSpec text C O).get ⟨i, hi⟩
      = pySlice text (i * (C - O)) (i * (C - O) + C) := by
  simp [chunksSpec]

theorem chunksSpec_reconstruct (text : List Char) (C O : Nat) (h : O < C) :
    ((chunksSpec text C O).dropLast.map fun c => c.take (C - O)).flatten
        ++ (chunksSpec text C O).getLastD [] = text := by
  unfold chunksSpec
  rcases hn : numChunks text.length C O with _ | m
  · have h1 : text.length ≤ numChunks text.length C O * (C - O) :=
      @le_numChunks_mul text.length C O h
    rw [hn] at h1
    have h2 : text = [] := by
      cases text with
      | nil => rfl
      | cons a t => simp at h1
    rw [h2]
    rfl
  · have hlen : text.length ≤ m * (C - O) + C := by
      have h2 : text.length ≤ numChunks text.length C O * (C - O) :=
        @le_numChunks_mul text.length C O h
      rw [hn] at h2
      have h3 : (m + 1) * (C - O) = m * (C - O) + (C - O) := by ring
      rw [h3] at h2
      exact le_trans h2 (Nat.add_le_add_left (by omega) (m * (C - O)))
    rw [List.range_succ, List.map_append, List.map_cons, List.map_nil,
      List.dropLast_concat, List.getLastD_concat, List.map_map]
    have hcomp : ((fun c => c.take (C - O))
          ∘ fun i => pySlice text (i * (C - O)) (i * (C - O) + C))
        = fun i => (pySlice text (i * (C - O)) (i * (C - O) + C)).take (C - O) := by
      funext i
      rfl
    rw [hcomp, join_take_chunks text (C - O) C (by omega) m]
    unfold pySlice
    have h4 : m * (C - O) + C - m * (C - O) = C := by omega
    rw [h4, ← List.take_add, List.take_of_length_le hlen]

/-! ## Claims about the Segmenter -/

/-- C3 (counterexample): the claimed chunk count
`ceil(max(len(T)-O,0)/(C-O))` is wrong, and a text shorter than
`chunk_size` need not yield exactly one chunk.  For `T = "abcd"`,
`C = 5`, `O = 2`, the code produces the two chunks `"abcd"` and `"d"`,
while the claimed formula gives `1`, and `len(T) = 4 < 5 = C`. -/
theorem chunk_count_claim_counterexample :
    chunk_text (String.toList "abcd") 5 2
        = some [String.toList "abcd", String.toList "d"] ∧
    claimedNumChunks (String.toList "abcd").length 5 2 = 1 ∧
    (String.toList "abcd").length < 5 := by
  refine ⟨by decide, by decide, by decide⟩

/-- C3 (amended): for `C > O ≥ 0`, `chunk_text` yields exactly
`ceil(len(T) / (C-O))` chunks; the empty text yields an empty sequence,
and every text with `0 < len(T) ≤ C - O` yields exactly one chunk equal
to the full text. -/
theorem chunk_count_correct (text : List Char) (C O : Nat) (h : O < C) :
    (chunk_text text C O).map List.length = some (numChunks text.length C O) ∧
    (text = [] → chunk_text text C O = some []) ∧
    (0 < text.length → text.length ≤ C - O → chunk_text text C O = some [text]) := by
  refine ⟨?_, ?_, ?_⟩
  · rw [chunk_text_eq_chunksSpec h]
    simp [length_chunksSpec]
  · intro he
    rw [chunk_text_eq_chunksSpec h]
    subst he
    unfold chunksSpec
    simp only [List.length_nil, numChunks_zero h, List.range_zero, List.map_nil]
  · intro hpos hle
    rw [chunk_text_eq_chunksSpec h]
    unfold chunksSpec
    rw [numChunks_eq_one h hpos hle]
    have h1 : pySlice text 0 C = text := by
      unfold pySlice
      simp only [List.drop_zero, Nat.sub_zero]
      exact List.take_of_length_le (by omega)
    simp [List.range_succ, h1]

/-- Witness for `chunk_count_correct` at `T = "abcdef"`, `C = 3`, `O = 1`. -/
theorem chunk_count_correct_witness :
    (chunk_text (String.toList "abcdef") 3 1).map List.length
        = some (numChunks (String.toList "abcdef").length 3 1) ∧
    (String.toList "abcdef" = [] → chunk_text (String.toList "abcdef") 3 1 = some []) ∧
    (0 < (String.toList "abcdef").length → (String.toList "abcdef").length ≤ 3 - 1 →
      chunk_text (String.toList "abcdef") 3 1 = some [String.toList "abcdef"]) :=
  chunk_count_correct (String.toList "abcdef") 3 1 (by decide)

/-- C4: the code performs no validation of `overlap ≥ chunk_size`: instead
of failing with an invalid-configuration error, the `while` loop of
`chunk_text` never terminates on any non-empty text (here `"ab"` with
`chunk_size = 1 = overlap`): the loop, run with any amount of fuel,
always runs out of fuel, so `chunk_text` reports no result at all. -/
theorem chunk_text_no_overlap_validation :
    (∀ fuel, chunkTextLoop 1 1 (String.toList "ab") 0 fuel = none) ∧
    chunk_text (String.toList "ab") 1 1 = none := by
  have key : ∀ fuel, chunkTextLoop 1 1 (String.toList "ab") 0 fuel = none := by
    intro fuel
    induction fuel with
    | zero => rfl
    | succ n ih =>
      unfold chunkTextLoop
      have h2 : (0 : Nat) + 1 - 1 = 0 := rfl
      rw [h2, ih]
      rfl
  exact ⟨key, key _⟩

/-- C6: for `C > O ≥ 0`, chunk `i` equals `T[i*(C-O) : i*(C-O)+C]`
(Python slice, clamped at the end of the text), and concatenating
`chunk[i][0 : C-O]` over all but the last chunk, followed by the last
chunk taken whole, reconstructs `T`. -/
theorem chunk_content_reconstruction (text : List Char) (C O : Nat)
    (h : O < C) (cs : List (List Char)) (hcs : chunk_text text C O = some cs) :
    (∀ i, (hi : i < cs.length) →
      cs.get ⟨i, hi⟩ = pySlice text (i * (C - O)) (i * (C - O) + C)) ∧
    (cs.dropLast.map fun c => c.take (C - O)).flatten ++ cs.getLastD [] = text := by
  have heq : cs = chunksSpec text C O := by
    have h1 := @chunk_text_eq_chunksSpec text C O h
    rw [hcs] at h1
    exact Option.some_injective _ h1
  subst heq
  exact ⟨fun i hi => chunksSpec_get i hi, chunksSpec_reconstruct text C O h⟩

/-- Witness for `chunk_content_reconstruction` at `T = "abcdef"`,
`C = 3`, `O = 1` (chunks `"abc"`, `"cde"`, `"ef"`). -/
theorem chunk_content_reconstruction_witness :
    (∀ i, (hi : i < ([String.toList "abc", String.toList "cde",
        String.toList "ef"] : List (List Char)).length) →
      ([String.toList "abc", String.toList "cde",
        String.toList "ef"] : List (List Char)).get ⟨i, hi⟩
        = pySlice (String.toList "abcdef") (i * (3 - 1)) (i * (3 - 1) + 3)) ∧
    (([String.toList "abc", String.toList "cde",
        String.toList "ef"] : List (List Char)).dropLast.map
          fun c => c.take (3 - 1)).flatten
      ++ ([String.toList "abc", String.toList "cde",
        String.toList "ef"] : List (List Char)).getLastD []
      = String.toList "abcdef" :=
  chunk_content_reconstruction (String.toList "abcdef") 3 1 (by decide)
    [String.toList "abc", String.toList "cde", String.toList "ef"] (by decide)

/-- C7: for every finite text and `C > O ≥ 0`, the `chunk_text` loop
terminates (within `len(text) + 1` iterations) and returns a finite
sequence of chunks. -/
theorem chunk_text_terminates (text : List Char) (C O : Nat) (h : O < C) :
    ∃ chunks, chunk_text text C O = some chunks :=
  ⟨chunksSpec text C O, chunk_text_eq_chunksSpec h⟩

/-- Witness for `chunk_text_terminates` at `T = "hello world"`,
`C = 4`, `O = 2`. -/
theorem chunk_text_terminates_witness :
    ∃ chunks, chunk_text (String.toList "hello world") 4 2 = some chunks :=
  chunk_text_terminates (String.toList "hello world") 4 2 (by decide)

/-! ## Claims about ingestion routing and deletion -/

/-- C1: each ingestion call inserts exactly one category pointer
`{class, subject, group, document_id}`: appended to the `stateboard`
partition with `cbse` untouched when `board` is the sentinel
`"stateboard"`, and appended to the `cbse` partition with `stateboard`
untouched for every other `board` value (including `none`, a missing
form field, and `some ""`, an empty one). -/
theorem upload_routing {V : Type} (embed : List Char → V) (s : DBState V)
    (filename : String) (text : List Char) (document_id : String)
    (class_ board subject group : Option String) (now : Nat) :
    ((admin_upload embed s filename text document_id class_ board subject group now).stateboard,
        (admin_upload embed s filename text document_id class_ board subject group now).cbse)
      = if board = some "stateboard"
        then (s.stateboard ++ [⟨class_, subject, group, document_id⟩], s.cbse)
        else (s.stateboard, s.cbse ++ [⟨class_, subject, group, document_id⟩]) := by
  unfold admin_upload
  by_cases hb : board = some "stateboard" <;> simp [hb]

/-! ### Helper lemmas on list deletion and limits -/

theorem eraseP_all_false {α : Type} (p : α → Bool) :
    ∀ l : List α, (l.filter p).length ≤ 1 → ∀ x ∈ l.eraseP p, p x = false := by
  intro l
  induction l with
  | nil => intro _ x hx; simp at hx
  | cons a t ih =>
    intro hlen x hx
    by_cases hpa : p a = true
    · rw [List.eraseP_cons_of_pos hpa] at hx
      rw [List.filter_cons_of_pos hpa] at hlen
      simp only [List.length_cons] at hlen
      have ht : t.filter p = [] := List.length_eq_zero.mp (by omega)
      have := List.filter_eq_nil_iff.mp ht x hx
      simpa using this
    · have hpa2 : ¬ p a := hpa
      rw [List.eraseP_cons_of_neg hpa2] at hx
      rcases List.mem_cons.mp hx with hxa | hxt
      · subst hxa
        simpa using hpa
      · rw [List.filter_cons_of_neg hpa2] at hlen
        exact ih hlen x hxt

theorem mem_of_mem_mongoLimit {α : Type} {x : α} {n : Nat} {l : List α}
    (h : x ∈ mongoLimit n l) : x ∈ l := by
  unfold mongoLimit at h
  by_cases hn : (n == 0) = true
  · rw [if_pos hn] at h; exact h
  · rw [if_neg hn] at h; exact List.take_subset _ _ h

theorem mem_documents_of_mem_get_documents {V : Type} {s : DBState V}
    {board class_ subject group : Option String} {limit : Nat} {r : DocRecord}
    (h : r ∈ get_documents s board class_ subject group limit) : r ∈ s.documents := by
  unfold get_documents at h
  exact List.mem_of_mem_filter (mem_of_mem_mongoLimit h)

theorem mem_documents_of_mem_get_stateboard {V : Type} {s : DBState V}
    {class_ subject group : Option String} {limit : Nat} {r : DocRecord}
    (h : r ∈ get_stateboard_documents s class_ subject group limit) :
    r ∈ s.documents := by
  unfold get_stateboard_documents at h
  exact List.mem_of_mem_filter h

theorem mem_documents_of_mem_get_cbse {V : Type} {s : DBState V}
    {class_ subject group : Option String} {limit : Nat} {r : DocRecord}
    (h : r ∈ get_cbse_documents s class_ subject group limit) :
    r ∈ s.documents := by
  unfold get_cbse_documents at h
  exact List.mem_of_mem_filter h

/-- C9: deleting a `document_id` that matches nothing in any store
reports success and leaves the whole state unchanged. -/
theorem delete_unknown_noop {V : Type} (s : DBState V) (d : String)
    (hdoc : ∀ r ∈ s.documents, r.document_id ≠ d)
    (hsb : ∀ p ∈ s.stateboard, p.document_id ≠ d)
    (hcb : ∀ p ∈ s.cbse, p.document_id ≠ d)
    (hv : ∀ v ∈ s.vectors, v.metadata_document_id ≠ d) :
    delete_document s d = (s, "Document deleted successfully") := by
  unfold delete_document
  have h1 : s.documents.eraseP (fun r => r.document_id == d) = s.documents :=
    List.eraseP_of_forall_not (fun a ha => by simpa using hdoc a ha)
  have h2 : (s.stateboard.filter fun p => !(p.document_id == d)) = s.stateboard :=
    List.filter_eq_self.mpr (fun a ha => by simpa using hsb a ha)
  have h3 : (s.cbse.filter fun p => !(p.document_id == d)) = s.cbse :=
    List.filter_eq_self.mpr (fun a ha => by simpa using hcb a ha)
  have h4 : (s.vectors.filter fun v => !(v.metadata_document_id == d)) = s.vectors :=
    List.filter_eq_self.mpr (fun a ha => by simpa using hv a ha)
  rw [h1, h2, h3, h4]

/-- Witness for `delete_unknown_noop`: a one-document state and an
unknown id `"zz"`. -/
theorem delete_unknown_noop_witness :
    delete_document
        (⟨[⟨"d1", "f.pdf", some "10", some "cbse", some "Math", none, 0⟩],
          [], [⟨some "10", some "Math", none, "d1"⟩],
          [⟨"d1-0", (), String.toList "abc", "d1"⟩]⟩ : DBState Unit) "zz"
      = (⟨[⟨"d1", "f.pdf", some "10", some "cbse", some "Math", none, 0⟩],
          [], [⟨some "10", some "Math", none, "d1"⟩],
          [⟨"d1-0", (), String.toList "abc", "d1"⟩]⟩, "Document deleted successfully") :=
  delete_unknown_noop _ "zz" (by decide) (by decide) (by decide) (by decide)

/-- C2: after `delete_document(d)` — provided the canonical store held at
most one record with that `document_id`, which is the data model's own
invariant — no canonical record, no category pointer in either
partition, and no vector record carries `d` any more, and consequently
no listing (unscoped or board-scoped, under any filters) returns `d`. -/
theorem delete_completeness {V : Type} (s : DBState V) (d : String)
    (huniq : (s.documents.filter fun r => r.document_id == d).length ≤ 1) :
    (∀ r ∈ ((delete_document s d).1).documents, r.document_id ≠ d) ∧
    (∀ p ∈ ((delete_document s d).1).stateboard, p.document_id ≠ d) ∧
    (∀ p ∈ ((delete_document s d).1).cbse, p.document_id ≠ d) ∧
    (∀ v ∈ ((delete_document s d).1).vectors, v.metadata_document_id ≠ d) ∧
    (∀ board class_ subject group limit,
      ∀ r ∈ get_documents ((delete_document s d).1) board class_ subject group limit,
        r.document_id ≠ d) ∧
    (∀ class_ subject group limit,
      ∀ r ∈ get_stateboard_documents ((delete_document s d).1) class_ subject group limit,
        r.document_id ≠ d) ∧
    (∀ class_ subject group limit,
      ∀ r ∈ get_cbse_documents ((delete_document s d).1) class_ subject group limit,
        r.document_id ≠ d) := by
  have hdocs : ∀ r ∈ ((delete_document s d).1).documents, r.document_id ≠ d := by
    intro r hr
    have hr2 : r ∈ s.documents.eraseP (fun r => r.document_id == d) := hr
    have := eraseP_all_false (fun r => r.document_id == d) s.documents huniq r hr2
    simpa using this
  refine ⟨hdocs, ?_, ?_, ?_, ?_, ?_, ?_⟩
  · intro p hp
    have := (List.mem_filter.mp hp).2
    simpa using this
  · intro p hp
    have := (List.mem_filter.mp hp).2
    simpa using this
  · intro v hv
    have := (List.mem_filter.mp hv).2
    simpa using this
  · intro board class_ subject group limit r hr
    exact hdocs r (mem_documents_of_mem_get_documents hr)
  · intro class_ subject group limit r hr
    exact hdocs r (mem_documents_of_mem_get_stateboard hr)
  · intro class_ subject group limit r hr
    exact hdocs r (mem_documents_of_mem_get_cbse hr)

/-- Witness for `delete_completeness`: a state holding one document
`"d1"` with a pointer in each partition and one vector; after deletion
nothing with id `"d1"` remains anywhere and no listing returns it. -/
theorem delete_completeness_witness :
    (∀ r ∈ ((delete_document sWit "d1").1).documents, r.document_id ≠ "d1") ∧
    (∀ p ∈ ((delete_document sWit "d1").1).stateboard, p.document_id ≠ "d1") ∧
    (∀ p ∈ ((delete_document sWit "d1").1).cbse, p.document_id ≠ "d1") ∧
    (∀ v ∈ ((delete_document sWit "d1").1).vectors, v.metadata_document_id ≠ "d1") ∧
    (∀ board class_ subject group limit,
      ∀ r ∈ get_documents ((delete_document sWit "d1").1) board class_ subject group limit,
        r.document_id ≠ "d1") ∧
    (∀ class_ subject group limit,
      ∀ r ∈ get_stateboard_documents ((delete_document sWit "d1").1) class_ subject group limit,
        r.document_id ≠ "d1") ∧
    (∀ class_ subject group limit,
      ∀ r ∈ get_cbse_documents ((delete_document sWit "d1").1) class_ subject group limit,
        r.document_id ≠ "d1") :=
  delete_completeness sWit "d1" (by decide)

/-! ## Claims about listing, update, and chunk/vector invariants -/

/-- C8 (counterexample): the unscoped listing ignores a provided `group`
filter.  With one canonical record whose group is `"A"`, listing with
`board` unspecified and `group = "B"` still returns that record, so the
result is not "exactly the canonical records matching the AND of the
provided class, subject and group equality filters". -/
theorem listing_group_filter_counterexample :
    get_documents sGroupA none none none (some "B") 20
        ≠ mongoLimit 20 (sGroupA.documents.filter (claimedListingFilter none none (some "B"))) ∧
    get_documents sGroupA none none none (some "B") 20 = sGroupA.documents ∧
    sGroupA.documents.filter (claimedListingFilter none none (some "B")) = [] := by
  refine ⟨by decide, by decide, by decide⟩

/-- C8 (amended): with `board` unspecified, the unscoped listing returns
exactly the canonical records matching the AND-combination of whichever
of the class and subject equality filters were provided, truncated to
the limit (a provided `group` filter is ignored by this endpoint; a
limit of 0 means no truncation in Mongo). -/
theorem listing_unscoped {V : Type} (s : DBState V)
    (class_ subject group : Option String) (limit : Nat) :
    get_documents s none class_ subject group limit
        = mongoLimit limit (s.documents.filter fun r =>
            (!truthy class_ || (r.class_ == class_)) &&
            (!truthy subject || (r.subject == subject))) ∧
    (∀ r ∈ get_documents s none class_ subject group limit,
      r ∈ s.documents ∧ (truthy class_ = true → r.class_ = class_) ∧
        (truthy subject = true → r.subject = subject)) ∧
    (limit ≠ 0 → (get_documents s none class_ subject group limit).length ≤ limit) := by
  refine ⟨?_, ?_, ?_⟩
  · have hfun : matchesDocQuery none class_ subject = fun r =>
        (!truthy class_ || (r.class_ == class_)) &&
        (!truthy subject || (r.subject == subject)) := by
      funext r
      simp [matchesDocQuery, truthy]
    unfold get_documents
    rw [hfun]
  · intro r hr
    have hm := (List.mem_filter.mp (mem_of_mem_mongoLimit hr)).2
    simp only [matchesDocQuery, Bool.and_eq_true, Bool.or_eq_true] at hm
    obtain ⟨⟨_hb, hc⟩, hs⟩ := hm
    refine ⟨mem_documents_of_mem_get_documents hr, ?_, ?_⟩
    · intro hct
      rcases hc with hfalse | hbeq
      · rw [hct] at hfalse; simp at hfalse
      · exact eq_of_beq hbeq
    · intro hst
      rcases hs with hfalse | hbeq
      · rw [hst] at hfalse; simp at hfalse
      · exact eq_of_beq hbeq
  · intro h0
    unfold get_documents mongoLimit
    rw [if_neg (by simpa using h0)]
    exact List.length_take_le _ _

/-- Witness for `listing_unscoped` at the one-record state `sGroupA`
with no filters and limit 1. -/
theorem listing_unscoped_witness :
    get_documents sGroupA none none none none 1
        = mongoLimit 1 (sGroupA.documents.filter fun r =>
            (!truthy none || (r.class_ == none)) &&
            (!truthy none || (r.subject == none))) ∧
    (∀ r ∈ get_documents sGroupA none none none none 1,
      r ∈ sGroupA.documents ∧ (truthy none = true → r.class_ = none) ∧
        (truthy none = true → r.subject = none)) ∧
    ((1 : Nat) ≠ 0 → (get_documents sGroupA none none none none 1).length ≤ 1) :=
  listing_unscoped sGroupA none none none 1

/-- C5 (counterexample): `update_document` with a payload carrying a
`document_id` key rewrites the identifier of the record it targets: the
single canonical record `"a"` of `sDocA` ends up with identifier `"b"`.
-/
theorem update_document_id_counterexample :
    ((((update_document sDocA "a" { document_id := some "b" }).1).documents.map
        fun r => r.document_id) = ["b"]) ∧
    ((sDocA.documents.map fun r => r.document_id) = ["a"]) := by
  refine ⟨by decide, by decide⟩

theorem updateOne_map_document_id (d : String) (data : UpdateData)
    (hd : data.document_id = none) :
    ∀ l : List DocRecord,
      ((updateOne d data l).map fun r => r.document_id)
        = l.map fun r => r.document_id := by
  intro l
  induction l with
  | nil => rfl
  | cons r rs ih =>
    unfold updateOne
    by_cases hr : (r.document_id == d) = true
    · rw [if_pos hr]
      simp [applySet, hd]
    · rw [if_neg hr]
      simp only [List.map_cons, ih]

/-- C5 (amended): `update_document` never changes the `document_id`
field of any canonical record provided the partial-fields payload does
not itself carry a `document_id` key. -/
theorem update_preserves_document_id {V : Type} (s : DBState V)
    (d : String) (data : UpdateData) (hd : data.document_id = none) :
    ((((update_document s d data).1).documents.map fun r => r.document_id)
      = s.documents.map fun r => r.document_id) :=
  updateOne_map_document_id d data hd s.documents

/-- Witness for `update_preserves_document_id`: updating record `"a"` of
`sDocA` with a subject-only payload. -/
theorem update_preserves_document_id_witness :
    ((((update_document sDocA "a" { subject := some "Sci" }).1).documents.map
        fun r => r.document_id) = sDocA.documents.map fun r => r.document_id) :=
  update_preserves_document_id sDocA "a" { subject := some "Sci" } rfl

/-- C10: for `C > O ≥ 0` every chunk produced by `chunk_text` is a
non-empty contiguous substring of the input of length at most `C`, and
every vector record built by `store_chunks` over those chunks embeds
exactly its own metadata text, which is one of the (non-empty) chunks —
so the embedder is never invoked on an empty string during ingestion of
a non-empty text. -/
theorem chunks_nonempty_bounded {V : Type} (embed : List Char → V)
    (text : List Char) (C O : Nat) (h : O < C) (cs : List (List Char))
    (hcs : chunk_text text C O = some cs) (document_id : String) :
    (∀ c ∈ cs, c ≠ [] ∧ c.length ≤ C ∧ c <:+: text) ∧
    (∀ v ∈ store_chunks embed cs document_id,
      v.values = embed v.metadata_text ∧ v.metadata_text ∈ cs ∧
        v.metadata_text ≠ []) := by
  have heq : cs = chunksSpec text C O := by
    have h1 := @chunk_text_eq_chunksSpec text C O h
    rw [hcs] at h1
    exact Option.some_injective _ h1
  have hmem : ∀ c ∈ cs, c ≠ [] ∧ c.length ≤ C ∧ c <:+: text := by
    intro c hc
    rw [heq] at hc
    unfold chunksSpec at hc
    obtain ⟨i, hi, hci⟩ := List.mem_map.mp hc
    have hiR : i < numChunks text.length C O := List.mem_range.mp hi
    have hlt : i * (C - O) < text.length := mul_lt_of_lt_numChunks h hiR
    subst hci
    unfold pySlice
    have harg : i * (C - O) + C - i * (C - O) = C := by
      obtain ⟨a, ha⟩ : ∃ a, a = i * (C - O) := ⟨_, rfl⟩
      rw [← ha]
      omega
    rw [harg]
    refine ⟨?_, ?_, ?_⟩
    · apply List.length_pos.mp
      rw [List.length_take, List.length_drop]
      obtain ⟨a, ha⟩ : ∃ a, a = i * (C - O) := ⟨_, rfl⟩
      rw [← ha] at hlt ⊢
      omega
    · rw [List.length_take, List.length_drop]
      exact Nat.min_le_left _ _
    · exact (List.take_prefix _ _).isInfix.trans (List.drop_suffix _ _).isInfix
  refine ⟨hmem, ?_⟩
  intro v hv
  unfold store_chunks at hv
  obtain ⟨p, hp, hvp⟩ := List.mem_map.mp hv
  subst hvp
  have hsnd : p.2 ∈ cs := by
    have h5 : p.2 ∈ cs.enum.map Prod.snd := List.mem_map_of_mem Prod.snd hp
    rwa [List.enum_map_snd] at h5
  exact ⟨rfl, hsnd, (hmem p.2 hsnd).1⟩

/-- Witness for `chunks_nonempty_bounded` at `T = "abc"`, `C = 2`,
`O = 1` (chunks `"ab"`, `"bc"`, `"c"`), `V = Unit`. -/
theorem chunks_nonempty_bounded_witness :
    (∀ c ∈ [String.toList "ab", String.toList "bc", String.toList "c"],
      c ≠ [] ∧ c.length ≤ 2 ∧ c <:+: String.toList "abc") ∧
    (∀ v ∈ store_chunks (fun _ => ())
        [String.toList "ab", String.toList "bc", String.toList "c"] "d1",
      v.values = (fun _ : List Char => ()) v.metadata_text ∧
        v.metadata_text ∈ [String.toList "ab", String.toList "bc", String.toList "c"] ∧
        v.metadata_text ≠ []) :=
  chunks_nonempty_bounded (fun _ => ()) (String.toList "abc") 2 1 (by decide)
    [String.toList "ab", String.toList "bc", String.toList "c"] (by decide) "d1"

end RagAdmin
